import Mathlib

/-!
Verification of the orangeandoliveco.in data/image pipeline.

Shallow embedding of the repository's Python sources:
* `src/utils.py` — `slugify`
* `src/download.py` — sha256 fingerprinting, manifest load, adaptive-quality
  image budget loop, and the per-row sync orchestration
* `src/generate.py` — `MenuItem` validation and the site-generation loop
* `src/constants.py` — `CATEGORIES`

Strings are modelled as Lean `String`/`List Char` (and, for `slugify`, as
lists of Unicode code points).  Machine integers do not occur in the Python
sources; sizes and prices are unbounded integers there, so `Nat`/`Int` are
exact models.  External effects (Google Drive, the local filesystem, PIL
encoding) are modelled as explicit oracles / threaded state.
-/

namespace OrangeOlive

set_option autoImplicit false
set_option maxRecDepth 10000

/-! ### Python string primitives

Python `str.strip()` (no arguments) removes leading/trailing whitespace.
`pySpace` models Python's whitespace set: the ASCII whitespace characters
(including the `\x1c`-`\x1f` separators recognised by `str.isspace` and by
`re`'s `\s` on `str`) together with the common Unicode space code points.
-/

def pySpace (n : Nat) : Bool :=
  n == 32 || n == 9 || n == 10 || n == 13 || n == 11 || n == 12 ||
  (28 ≤ n && n ≤ 31) || n == 133 || n == 160 || n == 5760 ||
  (8192 ≤ n && n ≤ 8202) || n == 8232 || n == 8233 || n == 8239 ||
  n == 8287 || n == 12288

def pySpaceChar (c : Char) : Bool := pySpace c.toNat

/-- Remove leading and trailing elements satisfying `p` (Python `strip`). -/
def stripWhile {α : Type} (p : α → Bool) (l : List α) : List α :=
  ((l.dropWhile p).reverse.dropWhile p).reverse

/-- Python `str.strip()` on a list of characters. -/
def pyStripChars (l : List Char) : List Char := stripWhile pySpaceChar l

/-- Python `str.strip()`. -/
def pyStrip (s : String) : String := ⟨pyStripChars s.data⟩

/-- Python `str.lower()` restricted to ASCII letters.  The repository only
lowercases ASCII identifiers (names, the `show` flag, filenames), where
Python's Unicode lowering agrees with the ASCII one. -/
def pyLowerChar (c : Char) : Char :=
  if 65 ≤ c.toNat && c.toNat ≤ 90 then Char.ofNat (c.toNat + 32) else c

def pyLower (s : String) : String := ⟨s.data.map pyLowerChar⟩

/-- Python `v.split("|")`: split on a single `'|'`, keeping empty segments. -/
def splitPipe : List Char → List (List Char)
  | [] => [[]]
  | c :: rest =>
    match splitPipe rest with
    | [] => [[]]
    | h :: t => if c = '|' then [] :: h :: t else (c :: h) :: t

/-! ### `src/utils.py` — `slugify`

```python
def slugify(value: str) -> str:
    value = (
        unicodedata.normalize("NFKD", value).encode("ascii", "ignore").decode("ascii")
    )
    value = re.sub(r"[^\w\s-]", "", value).strip().lower()
    return re.sub(r"[\s_-]+", "-", value).strip("-")
```

The pipeline is modelled over lists of code points (`List Nat`).  The first
line (NFKD normalisation followed by ASCII-encode-with-ignore) is modelled by
`normalizeAscii`: ASCII code points are NFKD-invariant and survive the ASCII
encode unchanged; non-ASCII code points are decomposed by `nfkdDecomp` (a
table of common decomposable characters; characters without a listed
decomposition map to themselves, exactly as NFKD leaves non-decomposable
characters alone) and any remaining non-ASCII code point is then dropped by
the `encode("ascii", "ignore")` filter. -/

/-- NFKD decomposition table (code points).  ASCII is NFKD-invariant; a few
common Latin-1 letters carry their canonical decompositions; unlisted code
points decompose to themselves. -/
def nfkdDecomp (n : Nat) : List Nat :=
  if n < 128 then [n]
  else if n = 233 then [101, 769]      -- é → e + combining acute
  else if n = 232 then [101, 768]      -- è → e + combining grave
  else if n = 224 then [97, 768]       -- à → a + combining grave
  else if n = 225 then [97, 769]       -- á → a + combining acute
  else if n = 241 then [110, 771]      -- ñ → n + combining tilde
  else if n = 252 then [117, 776]      -- ü → u + combining diaeresis
  else if n = 246 then [111, 776]      -- ö → o + combining diaeresis
  else if n = 234 then [101, 770]      -- ê → e + combining circumflex
  else if n = 238 then [105, 770]      -- î → i + combining circumflex
  else if n = 244 then [111, 770]      -- ô → o + combining circumflex
  else if n = 251 then [117, 770]      -- û → u + combining circumflex
  else if n = 231 then [99, 807]       -- ç → c + combining cedilla
  else if n = 160 then [32]            -- no-break space → space (NFKD)
  else [n]

/-- `unicodedata.normalize("NFKD", v).encode("ascii", "ignore")`. -/
def normalizeAscii (l : List Nat) : List Nat :=
  ((l.map nfkdDecomp).flatten).filter (fun n => n < 128)

/-- Python regex `\w` on the post-encode (pure ASCII) string. -/
def wordN (n : Nat) : Bool :=
  (97 ≤ n && n ≤ 122) || (65 ≤ n && n ≤ 90) || (48 ≤ n && n ≤ 57) || n == 95

/-- Characters collapsed by `re.sub(r"[\s_-]+", "-", value)`. -/
def sepN (n : Nat) : Bool := pySpace n || n == 95 || n == 45

/-- Python `str.lower()` on an ASCII code point. -/
def lowerN (n : Nat) : Nat := if 65 ≤ n && n ≤ 90 then n + 32 else n

/-- `re.sub(r"[\s_-]+", "-", value)`: each maximal run of separator
characters becomes a single hyphen.  The boolean records whether the
previous character belonged to a separator run. -/
def collapseSep : Bool → List Nat → List Nat
  | _, [] => []
  | prevSep, n :: rest =>
    if sepN n then
      if prevSep then collapseSep true rest
      else 45 :: collapseSep true rest
    else n :: collapseSep false rest

/-- `slugify` over code-point lists. -/
def slugifyN (l : List Nat) : List Nat :=
  let a := normalizeAscii l
  let b := a.filter (fun n => wordN n || pySpace n || n == 45)
  let c := stripWhile pySpace b
  let d := c.map lowerN
  stripWhile (fun n => n == 45) (collapseSep false d)

/-- `slugify` from `src/utils.py`. -/
def slugify (s : String) : String :=
  ⟨(slugifyN (s.data.map Char.toNat)).map Char.ofNat⟩

/-! ### `src/download.py` — `_sha256_bytes`

```python
def _sha256_bytes(b: bytes) -> str:
    h = hashlib.sha256()
    h.update(b)
    return h.hexdigest()
```

`hashlib.sha256` is the FIPS 180-4 SHA-256 function; it is implemented here
in full over byte lists (`List Nat`, each element a byte), with 32-bit words
as `Nat` reduced modulo `2^32`. -/

def w32 : Nat := 4294967296

def rotr32 (x n : Nat) : Nat := ((x >>> n) ||| (x <<< (32 - n))) % w32

def shaCh (x y z : Nat) : Nat := Nat.xor (Nat.land x y) (Nat.land (Nat.xor x 4294967295) z)

def shaMaj (x y z : Nat) : Nat :=
  Nat.xor (Nat.xor (Nat.land x y) (Nat.land x z)) (Nat.land y z)

def shaS0 (x : Nat) : Nat := Nat.xor (Nat.xor (rotr32 x 2) (rotr32 x 13)) (rotr32 x 22)

def shaS1 (x : Nat) : Nat := Nat.xor (Nat.xor (rotr32 x 6) (rotr32 x 11)) (rotr32 x 25)

def shaSig0 (x : Nat) : Nat := Nat.xor (Nat.xor (rotr32 x 7) (rotr32 x 18)) (x >>> 3)

def shaSig1 (x : Nat) : Nat := Nat.xor (Nat.xor (rotr32 x 17) (rotr32 x 19)) (x >>> 10)

/-- The 64 SHA-256 round constants of FIPS 180-4 (in decimal). -/
def shaK : List Nat :=
  [1116352408, 1899447441, 3049323471, 3921009573, 961987163, 1508970993,
   2453635748, 2870763221, 3624381080, 310598401, 607225278, 1426881987,
   1925078388, 2162078206, 2614888103, 3248222580, 3835390401, 4022224774,
   264347078, 604807628, 770255983, 1249150122, 1555081692, 1996064986,
   2554220882, 2821834349, 2952996808, 3210313671, 3336571891, 3584528711,
   113926993, 338241895, 666307205, 773529912, 1294757372, 1396182291,
   1695183700, 1986661051, 2177026350, 2456956037, 2730485921, 2820302411,
   3259730800, 3345764771, 3516065817, 3600352804, 4094571909, 275423344,
   430227734, 506948616, 659060556, 883997877, 958139571, 1322822218,
   1537002063, 1747873779, 1955562222, 2024104815, 2227730452, 2361852424,
   2428436474, 2756734187, 3204031479, 3329325298]

/-- SHA-256 hash state: eight 32-bit working variables. -/
structure ShaState where
  a : Nat
  b : Nat
  c : Nat
  d : Nat
  e : Nat
  f : Nat
  g : Nat
  h : Nat

/-- SHA-256 initial hash value `H(0)` of FIPS 180-4 (in decimal). -/
def shaInit : ShaState :=
  ⟨1779033703, 3144134277, 1013904242, 2773480762,
   1359893119, 2600822924, 528734635, 1541459225⟩

/-- Split a list into contiguous chunks of `k` elements.  The fuel argument
(instantiated with the list length) makes the recursion structural; each
step consumes at least one element, so `l.length` fuel always suffices. -/
def chunksFuel {α : Type} (k : Nat) : Nat → List α → List (List α)
  | 0, _ => []
  | _, [] => []
  | fuel + 1, l => l.take k :: chunksFuel k fuel (l.drop k)

def chunks {α : Type} (k : Nat) (l : List α) : List (List α) := chunksFuel k l.length l

/-- Big-endian word from a list of bytes. -/
def wordBE (bs : List Nat) : Nat := bs.foldl (fun a b => a * 256 + b) 0

/-- Big-endian 8-byte encoding of `n` (the message bit-length field). -/
def bytesBE8 (n : Nat) : List Nat :=
  [(n >>> 56) % 256, (n >>> 48) % 256, (n >>> 40) % 256, (n >>> 32) % 256,
   (n >>> 24) % 256, (n >>> 16) % 256, (n >>> 8) % 256, n % 256]

/-- SHA-256 padding: append `0x80`, zero bytes up to 56 mod 64, then the
64-bit big-endian bit length. -/
def shaPad (msg : List Nat) : List Nat :=
  let z := (119 - msg.length % 64) % 64
  msg ++ [128] ++ List.replicate z 0 ++ bytesBE8 (8 * msg.length)

/-- Extend the 16 block words to the 64-entry message schedule. -/
def shaExtend : List Nat → Nat → List Nat
  | ws, 0 => ws
  | ws, n + 1 =>
    let i := ws.length
    let w := (shaSig1 (ws.getD (i - 2) 0) + ws.getD (i - 7) 0 +
              shaSig0 (ws.getD (i - 15) 0) + ws.getD (i - 16) 0) % w32
    shaExtend (ws ++ [w]) n

/-- One SHA-256 compression round. -/
def shaRound (st : ShaState) (wk : Nat × Nat) : ShaState :=
  let t1 := (st.h + shaS1 st.e + shaCh st.e st.f st.g + wk.2 + wk.1) % w32
  let t2 := (shaS0 st.a + shaMaj st.a st.b st.c) % w32
  ⟨(t1 + t2) % w32, st.a, st.b, st.c, (st.d + t1) % w32, st.e, st.f, st.g⟩

/-- Process one 64-byte block. -/
def shaBlock (st : ShaState) (block : List Nat) : ShaState :=
  let ws := shaExtend ((chunks 4 block).map wordBE) 48
  let r := (ws.zip shaK).foldl shaRound st
  ⟨(st.a + r.a) % w32, (st.b + r.b) % w32, (st.c + r.c) % w32, (st.d + r.d) % w32,
   (st.e + r.e) % w32, (st.f + r.f) % w32, (st.g + r.g) % w32, (st.h + r.h) % w32⟩

def sha256 (msg : List Nat) : ShaState :=
  (chunks 64 (shaPad msg)).foldl shaBlock shaInit

/-- Lowercase hex digit, as produced by Python's `hexdigest`. -/
def hexChar (n : Nat) : Char := Char.ofNat (if n < 10 then 48 + n else 87 + n)

/-- Eight hex characters of one 32-bit word, most significant nibble first. -/
def hexWord (x : Nat) : List Char :=
  [hexChar ((x >>> 28) % 16), hexChar ((x >>> 24) % 16), hexChar ((x >>> 20) % 16),
   hexChar ((x >>> 16) % 16), hexChar ((x >>> 12) % 16), hexChar ((x >>> 8) % 16),
   hexChar ((x >>> 4) % 16), hexChar (x % 16)]

def digestChars (st : ShaState) : List Char :=
  hexWord st.a ++ hexWord st.b ++ hexWord st.c ++ hexWord st.d ++
  hexWord st.e ++ hexWord st.f ++ hexWord st.g ++ hexWord st.h

/-- `_sha256_bytes` from `src/download.py`: the lowercase hex digest of the
SHA-256 of the byte list. -/
def sha256Hex (b : List Nat) : String := ⟨digestChars (sha256 b)⟩

/-! ### `src/download.py` — constants and the adaptive quality loop -/

def RAW_MAX_BYTES : Nat := 4 * 1024 * 1024

def WEB_MAX_BYTES : Nat := 1 * 1024 * 1024

def JPEG_QUALITY_START : Nat := 85

def WEBP_QUALITY_START : Nat := 80

/-- The quality loop of `_save_with_budget`:

```python
best_q = q_start
while best_q >= 30:
    params = {"format": fmt, "optimize": True, "quality": best_q}
    if fmt.upper() == "JPEG":
        img2 = img2.convert("RGB")
    img2.save(out_path, **params)
    size = out_path.stat().st_size

    if size <= max_bytes:
        break
    else:
        best_q -= 5
```

`sizeAt q` is an oracle for the byte size produced by the PIL encoder at
quality `q` (the resize to `MAX_DIM` and the RGB conversion happen before
any size is measured and do not affect the loop).  The result is the quality
of the last write left on disk when the loop ends, `none` if the loop body
never ran. -/
def saveWithBudget (sizeAt : Nat → Nat) (maxBytes : Nat) (q : Nat) : Option Nat :=
  if _h : 30 ≤ q then
    if sizeAt q ≤ maxBytes then some q
    else
      match saveWithBudget sizeAt maxBytes (q - 5) with
      | some r => some r
      | none => some q
  else none
termination_by q
decreasing_by omega

/-! ### `src/download.py` — manifest load -/

/-- A manifest entry, as written by `download_images_from_csv` (the keys of
`m[file_id]`).  Web-variant keys are optional because the `**out` splat only
includes the formats present. -/
structure Entry where
  name : String
  raw_name : String
  raw_sha : String
  raw_bytes : Nat
  slug : String
  jpeg : Option String
  jpeg_bytes : Option Nat
  webp : Option String
  webp_bytes : Option Nat
  updated_at : Nat
deriving DecidableEq

/-- The persisted manifest document (`{"images": {...}}`). -/
structure ManifestDoc where
  images : List (String × Entry)
deriving DecidableEq

def emptyManifestDoc : ManifestDoc := ⟨[]⟩

/-- `_load_manifest`:

```python
def _load_manifest() -> dict:
    MANIFEST_PATH.parent.mkdir(parents=True, exist_ok=True)
    if MANIFEST_PATH.exists():
        try:
            return json.loads(MANIFEST_PATH.read_text(encoding="utf-8"))
        except Exception:
            pass
    return {"images": {}}
```

`file` is the file contents if the manifest file exists (`none` when
absent); `parse` is the JSON parser, returning `none` on any parse
failure. -/
def loadManifest (file : Option String) (parse : String → Option ManifestDoc) : ManifestDoc :=
  match file with
  | none => emptyManifestDoc
  | some s =>
    match parse s with
    | some d => d
    | none => emptyManifestDoc

/-! ### `src/download.py` — per-row sync orchestration

`download_images_from_csv` threads external state through each row.  The
model uses oracles for Google Drive (`fetch`, the listings) and for the PIL
encoder (`genJpegSize`), and threads the local filesystem and the in-memory
manifest explicitly. -/

/-- One file from a Drive listing (`files(id, name, mimeType)`). -/
structure DriveFile where
  name : String
  id : String
deriving DecidableEq

/-- A CSV row as consumed by `download_images_from_csv` (only the `name`
and `image` columns are read). -/
structure RowD where
  name : String
  image : String
deriving DecidableEq

/-- Update one key of a string-keyed map. -/
def upd {α : Type} (m : String → Option α) (k : String) (v : α) : String → Option α :=
  fun k' => if k' = k then some v else m k'

/-- External collaborators of the sync loop. -/
structure Env where
  fixImages : Bool
  files : List DriveFile
  webFiles : List (String × String)
  fetch : String → Except String (List Nat)
  genJpegSize : List Nat → Nat
  now : Nat

/-- Local state threaded through the loop: the in-memory manifest mapping
(`m = manifest["images"]`), the raw images directory (filename ↦ bytes), the
web images directory (filename ↦ byte size), the collected error list and
the `manual_upload` flag. -/
structure SyncState where
  manifest : String → Option Entry
  rawFS : String → Option (List Nat)
  webFS : String → Option Nat
  errors : List String
  manualUpload : Bool

/-- `raw_changed = prev.get("raw_sha") != raw_sha` (an absent entry has no
stored fingerprint, so it always counts as changed). -/
def rawChangedB (prev : Option Entry) (sha : String) : Bool :=
  match prev with
  | none => true
  | some e => e.raw_sha != sha

/-- The raw-persist condition `raw_changed or not raw_path.exists()`
(line 273 of `src/download.py`). -/
def persistRawB (prev : Option Entry) (sha : String) (rawExists : Bool) : Bool :=
  rawChangedB prev sha || !rawExists

/-- The web-variant dictionary built for the manifest entry (`out`). -/
structure WebOut where
  jpeg : Option String
  jpeg_bytes : Option Nat
  webp : Option String
  webp_bytes : Option Nat
deriving DecidableEq

/-- The pure core of one loop iteration of `download_images_from_csv`
(lines 259-314 of `src/download.py`, once the row's bytes and the local
file facts are in hand):

* `raw_sha = _sha256_bytes(content)`; `raw_changed` compares it with the
  manifest entry for `fileId`;
* the raw copy is (re)written iff `raw_changed or not raw_path.exists()`;
* `need_web = fix_images or raw_changed`, forced to `True` when neither
  web variant exists locally (`jpegEx`/`webpEx` are the existence of
  `{slug}.jpg`/`{slug}.webp` after the Drive `web/` copies);
* `out` is the transcoder result when `need_web` (with `EMIT_JPEG = True`,
  `EMIT_WEBP = False`, the transcoder emits `{slug}.jpg` of size
  `genSize`), otherwise the names and current sizes of the variants already
  on disk;
* the manifest entry for `fileId` is rebuilt and upserted unconditionally.
-/
structure RowUpdateOut where
  persistRaw : Bool
  needWeb : Bool
  out : WebOut
  entry : Entry
  manifest : String → Option Entry

def rowUpdate (fix : Bool) (m : String → Option Entry) (fileId name imageRawName : String)
    (content : List Nat) (rawExists jpegEx webpEx : Bool)
    (jpegSize webpSize genSize now : Nat) : RowUpdateOut :=
  let slug := slugify name
  let rawSha := sha256Hex content
  let prev := m fileId
  let rawChanged := rawChangedB prev rawSha
  let persist := persistRawB prev rawSha rawExists
  let needWeb := fix || rawChanged || (!jpegEx && !webpEx)
  let out : WebOut :=
    if needWeb then
      ⟨some (slug ++ ".jpg"), some genSize, none, none⟩
    else
      ⟨(if jpegEx then some (slug ++ ".jpg") else none),
       (if jpegEx then some jpegSize else none),
       (if webpEx then some (slug ++ ".webp") else none),
       (if webpEx then some webpSize else none)⟩
  let entry : Entry :=
    ⟨name, imageRawName, rawSha, content.length, slug,
     out.jpeg, out.jpeg_bytes, out.webp, out.webp_bytes, now⟩
  ⟨persist, needWeb, out, entry, upd m fileId entry⟩

/-- Copy a web variant down from the Drive `web/` folder when present
(lines 280-288).  A fetch failure is an exception of the surrounding `try`
block, formatted with the row's `file_id`. -/
def driveCopy (env : Env) (st : SyncState) (fname fileId : String) :
    Except String SyncState :=
  match (env.webFiles.filter (fun p => p.1 == fname)).head? with
  | none => .ok st
  | some p =>
    match env.fetch p.2 with
    | .error e => .error ("❌ file_id=" ++ fileId ++ ": " ++ e)
    | .ok c => .ok { st with webFS := upd st.webFS fname c.length }

/-- One iteration of the row loop of `download_images_from_csv`
(lines 237-318).  Skip paths (blank name, missing image column, no matching
Drive file) leave the state unchanged.  Any failure inside the `try` block
is appended to the error list and then re-raised (`raise e`), which the
model renders as an `Except.error` aborting the whole loop. -/
def rowStep (env : Env) (st : SyncState) (row : RowD) : Except String SyncState :=
  let name := pyStrip row.name
  if name = "" then .ok st
  else if row.image = "" then .ok st
  else
    match (env.files.filter (fun f => f.name == row.image)).head? with
    | none => .ok st
    | some f =>
      if f.id = "" then .ok st
      else
        let slug := slugify name
        match env.fetch f.id with
        | .error e => .error ("❌ file_id=" ++ f.id ++ ": " ++ e)
        | .ok content =>
          let rawSha := sha256Hex content
          let st1 :=
            if content.length > RAW_MAX_BYTES then
              { st with errors := st.errors ++
                  ["⚠ Raw " ++ row.image ++ " exceeds the raw byte budget"] }
            else st
          let rawExists := (st1.rawFS row.image).isSome
          let st2 :=
            if persistRawB (st1.manifest f.id) rawSha rawExists then
              { st1 with rawFS := upd st1.rawFS row.image content }
            else st1
          match driveCopy env st2 (slug ++ ".webp") f.id with
          | .error e => .error e
          | .ok st3 =>
            match driveCopy env st3 (slug ++ ".jpg") f.id with
            | .error e => .error e
            | .ok st4 =>
              let jpegEx := (st4.webFS (slug ++ ".jpg")).isSome
              let webpEx := (st4.webFS (slug ++ ".webp")).isSome
              let st5 :=
                { st4 with manualUpload := st4.manualUpload || (!jpegEx && !webpEx) }
              let rawNow := (st5.rawFS row.image).getD []
              let genSize := env.genJpegSize rawNow
              let jpegSize := (st5.webFS (slug ++ ".jpg")).getD 0
              let webpSize := (st5.webFS (slug ++ ".webp")).getD 0
              let R := rowUpdate env.fixImages st5.manifest f.id name row.image content
                         rawExists jpegEx webpEx jpegSize webpSize genSize env.now
              .ok { st5 with
                      manifest := R.manifest,
                      webFS := if R.needWeb then upd st5.webFS (slug ++ ".jpg") genSize
                               else st5.webFS }

/-- The row loop.  Because `rowStep` re-raises after recording an error, a
failing row aborts the whole loop. -/
def processRows (env : Env) : SyncState → List RowD → Except String SyncState
  | st, [] => .ok st
  | st, row :: rest =>
    match rowStep env st row with
    | .error e => .error e
    | .ok st' => processRows env st' rest

/-- `download_images_from_csv` after the Drive listings are resolved: run
the row loop, then save the manifest and return the error list.  On success
the result carries the error list (with the manual-upload warning appended
when the flag is set) and the saved manifest; an uncaught exception
propagates instead and the manifest is never saved. -/
def downloadImagesFromCsv (env : Env) (st0 : SyncState) (rows : List RowD) :
    Except String (List String × (String → Option Entry)) :=
  match processRows env st0 rows with
  | .error e => .error e
  | .ok st =>
    .ok ((if st.manualUpload then
            st.errors ++ ["⚠ Some web images were generated but need to be manually uploaded"]
          else st.errors), st.manifest)

/-! ### `src/constants.py` and `src/generate.py` -/

def CATEGORIES : List String :=
  ["Cookies & Shortbreads", "Cakes & Puddings", "Granola & Pantry"]

/-- `MenuItem.validate_price`:

```python
value = v.replace("₹", "").replace(",", "").strip()
if not value.isdigit():
    raise ValueError(f"Invalid price format: {v}")
return value
```

Both `replace` calls delete every occurrence of a single character, so they
are filters.  The remainder after stripping. -/
def stripPrice (s : String) : String :=
  pyStrip ⟨(s.data.filter (fun c => c ≠ '₹')).filter (fun c => c ≠ ',')⟩

/-- Python `str.isdigit()` on the (ASCII) remainder: non-empty and all
decimal digits. -/
def pyIsDigit (s : String) : Bool :=
  s ≠ "" && s.data.all Char.isDigit

/-- Python `int()` of a decimal digit string. -/
def intOfDigits (l : List Char) : Int :=
  l.foldl (fun a c => a * 10 + ((c.toNat - 48 : Nat) : Int)) 0

/-- The price field validation followed by pydantic's `int` coercion:
`some price` when the row passes, `none` when a `ValidationError` is
raised. -/
def validatePrice (s : String) : Option Int :=
  let value := stripPrice s
  if pyIsDigit value then some (intOfDigits value.data) else none

/-- `MenuItem.validate_image`: the lowercased name must end in a recognised
extension. -/
def validImage (v : String) : Bool :=
  let l := (pyLower v).data
  (".jpg".data.isSuffixOf l) || (".jpeg".data.isSuffixOf l) ||
  (".png".data.isSuffixOf l) || (".webp".data.isSuffixOf l)

/-- `MenuItem.split_testimonials`:

```python
if isinstance(v, str):
    return [t.strip() for t in v.split("|") if t.strip()]
```
-/
def splitTestimonials (s : String) : List String :=
  (splitPipe s.data).filterMap (fun t =>
    let t' := pyStripChars t
    if t' = [] then none else some ⟨t'⟩)

/-- A validated `MenuItem`. -/
structure MenuItem where
  name : String
  category : String
  description : String
  price : Int
  image : String
  testimonials : List String
deriving DecidableEq

/-- A raw CSV row of `data/menu.csv` as consumed by `generate_site`. -/
structure CsvRow where
  name : String
  category : String
  description : String
  price : String
  image : String
  testimonials : String
  showFlag : String
deriving DecidableEq

/-- `MenuItem(**row)`: run the field validators; any failure raises a
single `ValidationError` for the row, which `generate_site` records as one
error message naming the row. -/
def validateRow (r : CsvRow) : Except String MenuItem :=
  match validatePrice r.price, CATEGORIES.contains r.category, validImage r.image with
  | some p, true, true =>
    .ok ⟨r.name, r.category, r.description, p, r.image, splitTestimonials r.testimonials⟩
  | _, _, _ => .error ("Validation error for row — " ++ r.name)

/-- The visibility test `row["show"].lower()[:1] != "y"` (rows failing it
are skipped silently); the CSV `show` column is the `showFlag` field. -/
def visibleRow (r : CsvRow) : Bool :=
  (pyLower r.showFlag).data.take 1 == ['y']

/-- `create_item_page` output filename:
`f"{item.name.lower().replace(' ', '-')}.html"`. -/
def pageName (item : MenuItem) : String :=
  ⟨(item.name.data.map pyLowerChar).map (fun c => if c = ' ' then '-' else c)⟩ ++ ".html"

/-- The item-page loop of `generate_site` (lines 107-125): returns the item
pages written and the validation errors collected, in row order. -/
def generateSite : List CsvRow → List String × List String
  | [] => ([], [])
  | r :: rest =>
    if visibleRow r then
      match validateRow r with
      | .ok item =>
        let p := generateSite rest
        (pageName item :: p.1, p.2)
      | .error e =>
        let p := generateSite rest
        (p.1, e :: p.2)
    else generateSite rest

/-- The `__main__` block of `src/generate.py`: `sys.exit(1)` when the run
collected validation errors, normal exit (status 0) otherwise. -/
def generateExitCode (rows : List CsvRow) : Nat :=
  if (generateSite rows).2 = [] then 0 else 1

/-- Modelled from the spec's words (claim C3): the raw copy is written
exactly when the row counts as changed — where the global force flag is
also treated as changed — or no local raw copy exists.  To be compared
with the code's `persistRawB`. -/
def persistRawSpec (fix changed rawExists : Bool) : Bool :=
  (changed || fix) || !rawExists

/-! ### Helper lemmas -/

/-- Lowercase-hex predicate on characters. -/
def isHexDigitB (c : Char) : Bool :=
  (48 ≤ c.toNat && c.toNat ≤ 57) || (97 ≤ c.toNat && c.toNat ≤ 102)

/-- Lowercase ASCII letter or decimal digit (the non-hyphen output alphabet
of `slugify`). -/
def goodN (n : Nat) : Bool := (97 ≤ n && n ≤ 122) || (48 ≤ n && n ≤ 57)

theorem hexChar_isHex (n : Nat) : isHexDigitB (hexChar (n % 16)) = true := by
  have h : n % 16 < 16 := Nat.mod_lt _ (by norm_num)
  interval_cases hv : (n % 16) <;> decide

theorem hexWord_all (x : Nat) : (hexWord x).all isHexDigitB = true := by
  simp only [hexWord, List.all_cons, List.all_nil, Bool.and_true, Bool.and_eq_true]
  exact ⟨hexChar_isHex _, hexChar_isHex _, hexChar_isHex _, hexChar_isHex _,
         hexChar_isHex _, hexChar_isHex _, hexChar_isHex _, hexChar_isHex _⟩

theorem digestChars_length (st : ShaState) : (digestChars st).length = 64 := by
  simp [digestChars, hexWord]

theorem digestChars_all (st : ShaState) : (digestChars st).all isHexDigitB = true := by
  simp only [digestChars, List.all_append, Bool.and_eq_true]
  exact ⟨⟨⟨⟨⟨⟨⟨hexWord_all _, hexWord_all _⟩, hexWord_all _⟩, hexWord_all _⟩,
    hexWord_all _⟩, hexWord_all _⟩, hexWord_all _⟩, hexWord_all _⟩

/-- The full characterisation of one run of the `_save_with_budget` loop,
for any start quality that is at least the floor and a multiple of the
step. -/
theorem saveWithBudget_spec (sizeAt : Nat → Nat) (m : Nat) :
    ∀ q, 30 ≤ q → q % 5 = 0 →
      ∃ r, saveWithBudget sizeAt m q = some r ∧ 30 ≤ r ∧ r ≤ q ∧ r % 5 = 0 ∧
        (sizeAt r ≤ m ∨ r = 30) ∧
        (∀ u, r < u → u ≤ q → u % 5 = 0 → m < sizeAt u) := by
  intro q
  induction q using Nat.strong_induction_on with
  | _ q ih =>
    intro h30 h5
    rw [saveWithBudget]
    rw [dif_pos h30]
    by_cases hfit : sizeAt q ≤ m
    · rw [if_pos hfit]
      exact ⟨q, rfl, h30, Nat.le_refl q, h5, Or.inl hfit, fun u h1 h2 _ => by omega⟩
    · rw [if_neg hfit]
      by_cases hq : q = 30
      · subst hq
        have hnone : saveWithBudget sizeAt m 25 = none := by
          rw [saveWithBudget]; rfl
        rw [hnone]
        refine ⟨30, rfl, Nat.le_refl 30, Nat.le_refl 30, by norm_num, Or.inr rfl, ?_⟩
        intro u h1 h2 _; omega
      · have h35 : 35 ≤ q := by omega
        obtain ⟨r, hr, hr30, hrq, hr5, hfloor, hmax⟩ :=
          ih (q - 5) (by omega) (by omega) (by omega)
        rw [hr]
        refine ⟨r, rfl, hr30, by omega, hr5, hfloor, ?_⟩
        intro u h1 h2 h5u
        rcases le_or_lt u (q - 5) with hcase | hcase
        · exact hmax u h1 hcase h5u
        · have : u = q := by omega
          subst this
          omega

theorem intOfDigits_aux (l : List Char) :
    ∀ a : Int, 0 ≤ a → 0 ≤ l.foldl (fun a c => a * 10 + ((c.toNat - 48 : Nat) : Int)) a := by
  induction l with
  | nil => intro a ha; simpa using ha
  | cons c rest ihr =>
    intro a ha
    simp only [List.foldl_cons]
    apply ihr
    have : (0 : Int) ≤ ((c.toNat - 48 : Nat) : Int) := Int.ofNat_nonneg _
    omega

theorem intOfDigits_nonneg (l : List Char) : 0 ≤ intOfDigits l :=
  intOfDigits_aux l 0 le_rfl

/-! ### Claims -/

/-- C1: the claim says any per-row exception is caught, appended to the
batch error list, and the remaining rows and the final manifest write still
happen.  The code records the message and then re-raises (`raise e`,
line 318 of `src/download.py`), so a failing first row aborts the run: with
two rows whose images resolve to Drive ids `id1` and `id2` and a fetch that
raises, the whole run ends in the propagated exception — the second row is
never processed and no manifest is saved. -/
theorem C1_row_error_aborts_batch :
    downloadImagesFromCsv
      ⟨false, [⟨"a.jpg", "id1"⟩, ⟨"b.jpg", "id2"⟩], [],
       fun _ => .error "boom", fun _ => 0, 0⟩
      ⟨fun _ => none, fun _ => none, fun _ => none, [], false⟩
      [⟨"Item One", "a.jpg"⟩, ⟨"Item Two", "b.jpg"⟩]
      = .error "❌ file_id=id1: boom" := by
  rfl

/-- C2: the adaptive quality search of `_save_with_budget` starts at the
format-specific initial quality (85 for JPEG, 80 for WebP), lowers the
quality by exactly 5 on each retry (every quality above the accepted one in
the 5-step grid was tried and exceeded the budget), and always terminates
with an accepted encoding that either fits the byte budget or was produced
at the floor quality 30. -/
theorem C2_adaptive_quality_search :
    ∀ (sizeAt : Nat → Nat) (maxBytes : Nat),
      (∃ r, saveWithBudget sizeAt maxBytes JPEG_QUALITY_START = some r ∧
        30 ≤ r ∧ r ≤ JPEG_QUALITY_START ∧ r % 5 = 0 ∧
        (sizeAt r ≤ maxBytes ∨ r = 30) ∧
        (∀ u, r < u → u ≤ JPEG_QUALITY_START → u % 5 = 0 → maxBytes < sizeAt u))
    ∧ (∃ r, saveWithBudget sizeAt maxBytes WEBP_QUALITY_START = some r ∧
        30 ≤ r ∧ r ≤ WEBP_QUALITY_START ∧ r % 5 = 0 ∧
        (sizeAt r ≤ maxBytes ∨ r = 30) ∧
        (∀ u, r < u → u ≤ WEBP_QUALITY_START → u % 5 = 0 → maxBytes < sizeAt u)) :=
  fun sizeAt maxBytes =>
    ⟨saveWithBudget_spec sizeAt maxBytes 85 (by norm_num) (by norm_num),
     saveWithBudget_spec sizeAt maxBytes 80 (by norm_num) (by norm_num)⟩

/-- C3 counterexample: with the force flag set, an unchanged fingerprint
and an existing raw copy, the code does not rewrite the raw copy
(`persistRaw = false`), while the claim's condition — force counts as
changed, and raw bytes are written exactly when changed or no raw copy
exists — demands a write. -/
theorem C3_counterexample :
    (rowUpdate true
        (fun _ => some ⟨"Item", "a.jpg", sha256Hex [0], 1, "item",
                        none, none, none, none, 0⟩)
        "id1" "Item" "a.jpg" [0] true true false 3 4 5 6).persistRaw = false
    ∧ persistRawSpec true
        (rawChangedB (some ⟨"Item", "a.jpg", sha256Hex [0], 1, "item",
                            none, none, none, none, 0⟩) (sha256Hex [0])) true = true := by
  constructor
  · simp [rowUpdate, persistRawB, rawChangedB]
  · simp [persistRawSpec]

/-- C3 (amended): change detection compares the fresh fingerprint with the
manifest's stored one and an absent entry counts as changed; the raw copy
is written exactly when the fingerprint changed or no local raw copy
exists.  The force flag does not participate in the raw-persist decision
(it only feeds the reprocess decision): `rowUpdate` computes the same
`persistRaw` for `fix = true` and `fix = false`. -/
theorem C3_raw_persist_condition :
    (∀ (prev : Option Entry) (sha : String) (rawExists : Bool),
      persistRawB prev sha rawExists = (rawChangedB prev sha || !rawExists))
  ∧ (∀ (sha : String) (rawExists : Bool), persistRawB none sha rawExists = true)
  ∧ (∀ (fix : Bool) (m : String → Option Entry) (fileId name img : String)
       (content : List Nat) (rawEx jEx wEx : Bool) (js ws gs now : Nat),
      (rowUpdate fix m fileId name img content rawEx jEx wEx js ws gs now).persistRaw =
        persistRawB (m fileId) (sha256Hex content) rawEx)
  ∧ (∀ (m : String → Option Entry) (fileId name img : String)
       (content : List Nat) (rawEx jEx wEx : Bool) (js ws gs now : Nat),
      (rowUpdate true m fileId name img content rawEx jEx wEx js ws gs now).persistRaw =
        (rowUpdate false m fileId name img content rawEx jEx wEx js ws gs now).persistRaw) :=
  ⟨fun _ _ _ => rfl, fun _ _ => rfl, fun _ _ _ _ _ _ _ _ _ _ _ _ _ => rfl,
   fun _ _ _ _ _ _ _ _ _ _ _ _ => rfl⟩

/-- C4: for every row reaching the reprocess step, the transcoder runs iff
the bytes changed, the force flag is set, or no local web variant exists
for the derived slug; otherwise the existing on-disk variants are reused
with their current sizes; and the manifest entry for the identifier is
unconditionally upserted with the current fingerprint, variant names and
sizes, slug and timestamp. -/
theorem C4_reprocess_and_manifest_upsert :
    ∀ (fix : Bool) (m : String → Option Entry) (fileId name img : String)
      (content : List Nat) (rawEx jpegEx webpEx : Bool) (js ws gs now : Nat),
      (rowUpdate fix m fileId name img content rawEx jpegEx webpEx js ws gs now).needWeb =
        (rawChangedB (m fileId) (sha256Hex content) || fix || (!jpegEx && !webpEx))
    ∧ (rowUpdate fix m fileId name img content rawEx jpegEx webpEx js ws gs now).out =
        (if (rowUpdate fix m fileId name img content rawEx jpegEx webpEx js ws gs now).needWeb
         then (⟨some (slugify name ++ ".jpg"), some gs, none, none⟩ : WebOut)
         else ⟨(if jpegEx then some (slugify name ++ ".jpg") else none),
               (if jpegEx then some js else none),
               (if webpEx then some (slugify name ++ ".webp") else none),
               (if webpEx then some ws else none)⟩)
    ∧ (rowUpdate fix m fileId name img content rawEx jpegEx webpEx js ws gs now).manifest fileId =
        some (rowUpdate fix m fileId name img content rawEx jpegEx webpEx js ws gs now).entry
    ∧ (rowUpdate fix m fileId name img content rawEx jpegEx webpEx js ws gs now).entry =
        ⟨name, img, sha256Hex content, content.length, slugify name,
         (rowUpdate fix m fileId name img content rawEx jpegEx webpEx js ws gs now).out.jpeg,
         (rowUpdate fix m fileId name img content rawEx jpegEx webpEx js ws gs now).out.jpeg_bytes,
         (rowUpdate fix m fileId name img content rawEx jpegEx webpEx js ws gs now).out.webp,
         (rowUpdate fix m fileId name img content rawEx jpegEx webpEx js ws gs now).out.webp_bytes,
         now⟩ := by
  intro fix m fileId name img content rawEx jpegEx webpEx js ws gs now
  refine ⟨?_, rfl, ?_, rfl⟩
  · simp only [rowUpdate]
    cases rawChangedB (m fileId) (sha256Hex content) <;> cases fix <;> simp
  · simp [rowUpdate, upd]

/-- C5: price validation strips the currency symbol and the thousands
separators; `"₹1,200"` parses to `1200`; a price is rejected exactly when
the remainder after stripping is not a non-empty all-digit string; every
successfully parsed price is a non-negative integer; and in a batch where
one row fails price validation, that row alone is excluded (with one
validation error) while the valid rows are still generated. -/
theorem C5_price_validation :
    validatePrice "₹1,200" = some 1200
  ∧ (∀ s : String, validatePrice s = none ↔ pyIsDigit (stripPrice s) = false)
  ∧ (∀ (s : String) (p : Int), validatePrice s = some p → 0 ≤ p)
  ∧ generateSite
      [⟨"Vanilla Cake", "Cakes & Puddings", "d", "₹450", "v.jpg", "", "yes"⟩,
       ⟨"Walnut Tart", "Cakes & Puddings", "d", "n/a", "w.jpg", "", "yes"⟩]
      = (["vanilla-cake.html"], ["Validation error for row — Walnut Tart"]) := by
  refine ⟨by decide, ?_, ?_, by decide⟩
  · intro s
    by_cases h : pyIsDigit (stripPrice s) <;> simp [validatePrice, h]
  · intro s p hp
    simp only [validatePrice] at hp
    split at hp
    · cases hp
      exact intOfDigits_nonneg _
    · cases hp

/-- C6: site generation exits with status 1 exactly when validation errors
occurred and 0 otherwise; on the 3-row catalog with row A valid and
visible, row B hidden (`show=no`) and row C visible with an invalid
category, exactly one item page (A's) is produced, exactly one validation
error (C's) is reported, the exit status is non-zero and row B contributes
neither a page nor an error. -/
theorem C6_exit_status_and_scenario :
    (∀ rows : List CsvRow,
      (generateExitCode rows ≠ 0 ↔ (generateSite rows).2 ≠ []) ∧
      (generateExitCode rows = 0 ∨ generateExitCode rows = 1))
  ∧ generateSite
      [⟨"Almond Cake", "Cakes & Puddings", "dA", "₹1,200", "a.jpg", "Nice | ", "yes"⟩,
       ⟨"Brownie", "Cakes & Puddings", "dB", "₹300", "b.jpg", "", "no"⟩,
       ⟨"Choco Chip", "Bad Category", "dC", "₹200", "c.jpg", "", "y"⟩]
      = (["almond-cake.html"], ["Validation error for row — Choco Chip"])
  ∧ generateExitCode
      [⟨"Almond Cake", "Cakes & Puddings", "dA", "₹1,200", "a.jpg", "Nice | ", "yes"⟩,
       ⟨"Brownie", "Cakes & Puddings", "dB", "₹300", "b.jpg", "", "no"⟩,
       ⟨"Choco Chip", "Bad Category", "dC", "₹200", "c.jpg", "", "y"⟩] = 1 := by
  refine ⟨?_, by decide, by decide⟩
  intro rows
  constructor
  · simp only [generateExitCode]
    split <;> simp_all
  · simp only [generateExitCode]
    split <;> simp

/-- C7: loading the manifest returns the parsed document when the file
exists and parses, and returns the empty manifest both when the file is
absent and when parsing fails — in no case does it raise. -/
theorem C7_load_manifest :
    (∀ parse : String → Option ManifestDoc, loadManifest none parse = emptyManifestDoc)
  ∧ (∀ (parse : String → Option ManifestDoc) (s : String) (d : ManifestDoc),
      parse s = some d → loadManifest (some s) parse = d)
  ∧ (∀ (parse : String → Option ManifestDoc) (s : String),
      parse s = none → loadManifest (some s) parse = emptyManifestDoc) := by
  refine ⟨fun _ => rfl, ?_, ?_⟩
  · intro parse s d h
    simp [loadManifest, h]
  · intro parse s h
    simp [loadManifest, h]

/-- C8: the content fingerprint is a pure Lean function, hence
deterministic — the same bytes always produce the same digest — and its
output is always a 64-character lowercase-hexadecimal string; it is total
(no failure modes). -/
theorem C8_fingerprint_deterministic_hex :
    ∀ b : List Nat,
      sha256Hex b = sha256Hex b
    ∧ (sha256Hex b).length = 64
    ∧ (sha256Hex b).data.all isHexDigitB = true := by
  intro b
  refine ⟨rfl, ?_, ?_⟩
  · show (digestChars (sha256 b)).length = 64
    exact digestChars_length _
  · exact digestChars_all _

theorem mkString_eq_empty_iff (l : List Char) : ((⟨l⟩ : String) = "") ↔ l = [] := by
  constructor
  · intro h
    have := congrArg String.data h
    simpa using this
  · intro h
    subst h
    rfl

/-- The split-strip-drop comprehension equals map-then-filter. -/
theorem splitTestimonials_eq (s : String) :
    splitTestimonials s =
      ((splitPipe s.data).map (fun t => (⟨pyStripChars t⟩ : String))).filter
        (fun t => t ≠ "") := by
  unfold splitTestimonials
  induction splitPipe s.data with
  | nil => rfl
  | cons h t iht =>
    simp only [List.filterMap_cons, List.map_cons, List.filter_cons]
    by_cases hc : pyStripChars h = []
    · rw [if_pos hc]
      have hne : (decide ((⟨pyStripChars h⟩ : String) ≠ "")) = false := by
        simp [mkString_eq_empty_iff, hc]
      rw [hne]
      exact iht
    · rw [if_neg hc]
      have hne : (decide ((⟨pyStripChars h⟩ : String) ≠ "")) = true := by
        simp [mkString_eq_empty_iff, hc]
      rw [hne, iht]
      rfl

/-- C10: splitting the pipe-delimited testimonials field equals mapping
`strip` over the segments in order and then dropping the empty remainders,
the result is a sublist (order-preserving selection) of the stripped
segments, and every resulting testimonial is a non-empty string. -/
theorem C10_split_testimonials :
    ∀ s : String,
      splitTestimonials s =
        ((splitPipe s.data).map (fun t => (⟨pyStripChars t⟩ : String))).filter
          (fun t => t ≠ "")
    ∧ (splitTestimonials s).Sublist
        ((splitPipe s.data).map (fun t => (⟨pyStripChars t⟩ : String)))
    ∧ ∀ t ∈ splitTestimonials s, t ≠ "" := by
  intro s
  have hmain := splitTestimonials_eq s
  refine ⟨hmain, ?_, ?_⟩
  · rw [hmain]
    exact List.filter_sublist _
  · intro t ht
    rw [hmain] at ht
    have := List.of_mem_filter ht
    simpa using this

/-! ### Lemmas for `slugify` (claim C9) -/

theorem dropWhile_eq_self_of_head {α : Type} (p : α → Bool) (l : List α)
    (h : ∀ x ∈ l.head?, p x = false) : l.dropWhile p = l := by
  cases l with
  | nil => rfl
  | cons a t =>
    have ha : p a = false := h a rfl
    simp [List.dropWhile_cons, ha]

theorem stripWhile_eq_self {α : Type} (p : α → Bool) (l : List α)
    (h1 : ∀ x ∈ l.head?, p x = false) (h2 : ∀ x ∈ l.getLast?, p x = false) :
    stripWhile p l = l := by
  unfold stripWhile
  rw [dropWhile_eq_self_of_head p l h1]
  rw [dropWhile_eq_self_of_head p l.reverse (by simpa using h2)]
  exact l.reverse_reverse

theorem stripWhile_eq_self_of_all {α : Type} (p : α → Bool) (l : List α)
    (h : ∀ x ∈ l, p x = false) : stripWhile p l = l :=
  stripWhile_eq_self p l (fun x hx => h x (List.mem_of_mem_head? hx))
    (fun x hx => h x (List.mem_of_mem_getLast? hx))

theorem stripWhile_isInfix {α : Type} (p : α → Bool) (l : List α) :
    (stripWhile p l).IsInfix l := by
  have h1 : (l.dropWhile p) <:+ l := List.dropWhile_suffix p
  have h2 : ((l.dropWhile p).reverse.dropWhile p) <:+ (l.dropWhile p).reverse :=
    List.dropWhile_suffix p
  have h3 : ((l.dropWhile p).reverse.dropWhile p).reverse <+: (l.dropWhile p) := by
    rw [← List.reverse_suffix]
    simpa using h2
  exact h3.isInfix.trans h1.isInfix

theorem mem_of_mem_stripWhile {α : Type} (p : α → Bool) (l : List α) {x : α}
    (h : x ∈ stripWhile p l) : x ∈ l :=
  (stripWhile_isInfix p l).subset h

theorem stripWhile_chain {α : Type} (R : α → α → Prop) (p : α → Bool) (l : List α)
    (h : List.Chain' R l) : List.Chain' R (stripWhile p l) :=
  h.infix (stripWhile_isInfix p l)

theorem stripWhile_head {α : Type} (p : α → Bool) (l : List α) :
    ∀ x ∈ (stripWhile p l).head?, p x = false := by
  intro x hx
  unfold stripWhile at hx
  rw [List.head?_reverse] at hx
  obtain ⟨t, ht⟩ : ((l.dropWhile p).reverse.dropWhile p) <:+ (l.dropWhile p).reverse :=
    List.dropWhile_suffix p
  have hx' : ((l.dropWhile p).reverse.dropWhile p).getLast? = some x := hx
  have hrev : ((l.dropWhile p).reverse).getLast? = some x := by
    rw [← ht, List.getLast?_append, hx']
    rfl
  rw [List.getLast?_reverse] at hrev
  have := List.head?_dropWhile_not p l
  rw [hrev] at this
  exact this

theorem stripWhile_last {α : Type} (p : α → Bool) (l : List α) :
    ∀ x ∈ (stripWhile p l).getLast?, p x = false := by
  intro x hx
  unfold stripWhile at hx
  rw [List.getLast?_reverse] at hx
  have hx' : ((l.dropWhile p).reverse.dropWhile p).head? = some x := hx
  have := List.head?_dropWhile_not p (l.dropWhile p).reverse
  rw [hx'] at this
  exact this

theorem collapseSep_mem :
    ∀ (flag : Bool) (l : List Nat) (x : Nat),
      x ∈ collapseSep flag l → x = 45 ∨ (x ∈ l ∧ sepN x = false) := by
  intro flag l
  induction l generalizing flag with
  | nil => intro x hx; simp [collapseSep] at hx
  | cons n rest ih =>
    intro x hx
    by_cases hs : sepN n = true
    · cases flag with
      | true =>
        have hx' : x ∈ collapseSep true rest := by
          simpa [collapseSep, hs] using hx
        rcases ih true x hx' with h45 | ⟨hm, hns⟩
        · exact Or.inl h45
        · exact Or.inr ⟨List.mem_cons_of_mem _ hm, hns⟩
      | false =>
        have hx' : x ∈ 45 :: collapseSep true rest := by
          simpa [collapseSep, hs] using hx
        rcases List.mem_cons.mp hx' with h45 | hmem
        · exact Or.inl h45
        · rcases ih true x hmem with h45 | ⟨hm, hns⟩
          · exact Or.inl h45
          · exact Or.inr ⟨List.mem_cons_of_mem _ hm, hns⟩
    · have hx' : x ∈ n :: collapseSep false rest := by
        simpa [collapseSep, hs] using hx
      rcases List.mem_cons.mp hx' with hn | hmem
      · subst hn
        exact Or.inr ⟨List.mem_cons_self _ _, Bool.not_eq_true _ ▸ by simpa using hs⟩
      · rcases ih false x hmem with h45 | ⟨hm, hns⟩
        · exact Or.inl h45
        · exact Or.inr ⟨List.mem_cons_of_mem _ hm, hns⟩

theorem collapseSep_chain :
    ∀ (l : List Nat) (flag : Bool),
      List.Chain' (fun a b => ¬(a = 45 ∧ b = 45)) (collapseSep flag l)
    ∧ (flag = true → (collapseSep flag l).head? ≠ some 45) := by
  intro l
  induction l with
  | nil =>
    intro flag
    exact ⟨by simp [collapseSep], by simp [collapseSep]⟩
  | cons n rest ih =>
    intro flag
    by_cases hs : sepN n = true
    · cases flag with
      | true =>
        refine ⟨?_, fun _ => ?_⟩
        · simpa [collapseSep, hs] using (ih true).1
        · simpa [collapseSep, hs] using (ih true).2 rfl
      | false =>
        have hhead := (ih true).2 rfl
        refine ⟨?_, fun habs => by cases habs⟩
        have hch : List.Chain' (fun a b => ¬(a = 45 ∧ b = 45))
            (45 :: collapseSep true rest) := by
          rw [List.chain'_cons']
          refine ⟨?_, (ih true).1⟩
          intro y hy
          intro ⟨_, hy45⟩
          exact hhead (by rw [hy45] at hy; exact hy)
        simpa [collapseSep, hs] using hch
    · have hn45 : n ≠ 45 := by
        intro hn
        subst hn
        exact hs (by decide)
      have hch : List.Chain' (fun a b => ¬(a = 45 ∧ b = 45))
          (n :: collapseSep false rest) := by
        rw [List.chain'_cons']
        exact ⟨fun y _ => fun ⟨hn, _⟩ => hn45 hn, (ih false).1⟩
      refine ⟨by simpa [collapseSep, hs] using hch, fun _ => ?_⟩
      have : (collapseSep flag (n :: rest)) = n :: collapseSep false rest := by
        simp [collapseSep, hs]
      rw [this]
      simp [hn45]

theorem collapseSep_id :
    ∀ l : List Nat,
      (∀ x ∈ l, sepN x = false ∨ x = 45) →
      List.Chain' (fun a b => ¬(a = 45 ∧ b = 45)) l →
      collapseSep false l = l ∧ (l.head? ≠ some 45 → collapseSep true l = l) := by
  intro l
  induction l with
  | nil => intro _ _; exact ⟨rfl, fun _ => rfl⟩
  | cons n rest ih =>
    intro hx hc
    have hrest := ih (fun x hxm => hx x (List.mem_cons_of_mem _ hxm))
      (List.chain'_cons'.mp hc).2
    rcases hx n (List.mem_cons_self n rest) with hns | h45
    · have e1 : collapseSep false (n :: rest) = n :: collapseSep false rest := by
        simp [collapseSep, hns]
      have e2 : collapseSep true (n :: rest) = n :: collapseSep false rest := by
        simp [collapseSep, hns]
      exact ⟨by rw [e1, hrest.1], fun _ => by rw [e2, hrest.1]⟩
    · subst h45
      have e1 : collapseSep false (45 :: rest) = 45 :: collapseSep true rest := rfl
      have hhead : rest.head? ≠ some 45 := by
        intro habs
        have hrel := (List.chain'_cons'.mp hc).1 45 habs
        exact hrel ⟨rfl, rfl⟩
      refine ⟨?_, fun habs => (habs rfl).elim⟩
      rw [e1, hrest.2 hhead]

theorem mem_normalizeAscii {l : List Nat} {n : Nat} (h : n ∈ normalizeAscii l) :
    n < 128 := by
  have := (List.mem_filter.mp h).2
  simpa using this

theorem normalizeAscii_id {l : List Nat} (h : ∀ n ∈ l, n < 128) :
    normalizeAscii l = l := by
  induction l with
  | nil => rfl
  | cons n rest ih =>
    have hn : n < 128 := h n (List.mem_cons_self _ _)
    have e : nfkdDecomp n = [n] := by rw [nfkdDecomp, if_pos hn]
    show (((n :: rest).map nfkdDecomp).flatten).filter (fun m => m < 128) = n :: rest
    rw [List.map_cons, List.flatten_cons, e, List.singleton_append, List.filter_cons]
    rw [if_pos (by simpa using hn)]
    exact congrArg (n :: ·) (ih (fun m hm => h m (List.mem_cons_of_mem _ hm)))

theorem mem_slugifyN {l : List Nat} {x : Nat} (h : x ∈ slugifyN l) :
    goodN x = true ∨ x = 45 := by
  unfold slugifyN at h
  have h1 := mem_of_mem_stripWhile _ _ h
  rcases collapseSep_mem false _ x h1 with h45 | ⟨hd, hsep⟩
  · exact Or.inr h45
  · left
    rcases List.mem_map.mp hd with ⟨y, hy, rfl⟩
    have hyb := mem_of_mem_stripWhile _ _ hy
    have hf := List.mem_filter.mp hyb
    have hy128 : y < 128 := mem_normalizeAscii hf.1
    have hkeep := hf.2
    by_cases hup : (65 ≤ y && y ≤ 90) = true
    · have hl : lowerN y = y + 32 := by rw [lowerN, if_pos hup]
      rw [hl]
      simp only [Bool.and_eq_true, decide_eq_true_eq] at hup
      simp only [goodN, Bool.or_eq_true, Bool.and_eq_true, decide_eq_true_eq]
      omega
    · have hl : lowerN y = y := by rw [lowerN, if_neg hup]
      rw [hl] at hsep ⊢
      simp only [Bool.and_eq_true, decide_eq_true_eq, not_and, not_le] at hup
      simp only [wordN, pySpace, Bool.or_eq_true, Bool.and_eq_true,
        decide_eq_true_eq, beq_iff_eq] at hkeep
      have hsep' : ¬(sepN y = true) := by simp [hsep]
      simp only [sepN, pySpace, Bool.or_eq_true, Bool.and_eq_true,
        decide_eq_true_eq, beq_iff_eq] at hsep'
      push_neg at hsep'
      simp only [goodN, Bool.or_eq_true, Bool.and_eq_true, decide_eq_true_eq]
      omega

theorem slugifyN_chain (l : List Nat) :
    List.Chain' (fun a b => ¬(a = 45 ∧ b = 45)) (slugifyN l) :=
  stripWhile_chain _ _ _ ((collapseSep_chain _ false).1)

theorem slugifyN_head (l : List Nat) : ∀ x ∈ (slugifyN l).head?, x ≠ 45 := by
  intro x hx
  have := stripWhile_head (fun n => n == 45) _ x hx
  simpa using this

theorem slugifyN_last (l : List Nat) : ∀ x ∈ (slugifyN l).getLast?, x ≠ 45 := by
  intro x hx
  have := stripWhile_last (fun n => n == 45) _ x hx
  simpa using this

theorem good45_lt128 {x : Nat} (h : goodN x = true ∨ x = 45) : x < 128 := by
  rcases h with hg | h45
  · simp only [goodN, Bool.or_eq_true, Bool.and_eq_true, decide_eq_true_eq] at hg
    omega
  · omega

theorem map_lowerN_id {l : List Nat} (h : ∀ x ∈ l, goodN x = true ∨ x = 45) :
    l.map lowerN = l := by
  induction l with
  | nil => rfl
  | cons n rest ih =>
    have hn := h n (List.mem_cons_self _ _)
    have hl : lowerN n = n := by
      rw [lowerN, if_neg]
      rcases hn with hg | h45
      · simp only [goodN, Bool.or_eq_true, Bool.and_eq_true, decide_eq_true_eq] at hg
        simp only [Bool.and_eq_true, decide_eq_true_eq, not_and, not_le]
        omega
      · subst h45
        decide
    rw [List.map_cons, hl, ih (fun x hx => h x (List.mem_cons_of_mem _ hx))]

theorem slugifyN_idem (l : List Nat) : slugifyN (slugifyN l) = slugifyN l := by
  have hmem : ∀ x ∈ slugifyN l, goodN x = true ∨ x = 45 := fun _ hx => mem_slugifyN hx
  have h128 : ∀ x ∈ slugifyN l, x < 128 := fun x hx => good45_lt128 (hmem x hx)
  show stripWhile (fun n => n == 45)
    (collapseSep false
      ((stripWhile pySpace
        ((normalizeAscii (slugifyN l)).filter
          (fun n => wordN n || pySpace n || n == 45))).map lowerN)) = slugifyN l
  rw [normalizeAscii_id h128]
  rw [List.filter_eq_self.mpr ?keep]
  rw [stripWhile_eq_self_of_all pySpace _ ?nospace]
  rw [map_lowerN_id hmem]
  rw [(collapseSep_id _ ?sep45 (slugifyN_chain l)).1]
  · exact stripWhile_eq_self _ _
      (fun x hx => by simpa using slugifyN_head l x hx)
      (fun x hx => by simpa using slugifyN_last l x hx)
  case keep =>
    intro x hx
    rcases hmem x hx with hg | h45
    · simp only [goodN, Bool.or_eq_true, Bool.and_eq_true, decide_eq_true_eq] at hg
      simp only [wordN, Bool.or_eq_true, Bool.and_eq_true, decide_eq_true_eq, beq_iff_eq]
      omega
    · subst h45
      decide
  case nospace =>
    intro x hx
    rcases hmem x hx with hg | h45
    · simp only [goodN, Bool.or_eq_true, Bool.and_eq_true, decide_eq_true_eq] at hg
      simp only [pySpace, Bool.or_eq_false_iff, beq_eq_false_iff_ne, ne_eq,
        Bool.and_eq_false_iff, decide_eq_false_iff_not, not_le]
      omega
    · subst h45
      decide
  case sep45 =>
    intro x hx
    rcases hmem x hx with hg | h45
    · left
      simp only [goodN, Bool.or_eq_true, Bool.and_eq_true, decide_eq_true_eq] at hg
      simp only [sepN, pySpace, Bool.or_eq_false_iff, beq_eq_false_iff_ne, ne_eq,
        Bool.and_eq_false_iff, decide_eq_false_iff_not, not_le]
      omega
    · exact Or.inr h45

theorem charToNat_ofNat_valid (n : Nat) (h : n.isValidChar) :
    (Char.ofNat n).toNat = n := by
  simp [Char.ofNat, dif_pos h, Char.ofNatAux, Char.toNat, UInt32.toNat,
    BitVec.toNat_ofNatLt]

theorem ofNat_eq_dash {a : Nat} (h : Char.ofNat a = '-') : a = 45 := by
  by_cases hv : a.isValidChar
  · have := charToNat_ofNat_valid a hv
    rw [h] at this
    simpa using this.symm
  · exfalso
    have h2 := congrArg Char.toNat h
    rw [Char.ofNat, dif_neg hv] at h2
    simp [Char.toNat, UInt32.toNat, BitVec.toNat_ofNatLt] at h2

theorem char_roundtrip : ∀ m : Nat, m < 128 → (Char.ofNat m).toNat = m := by
  decide

theorem map_toNat_map_ofNat {l : List Nat} (h : ∀ x ∈ l, x < 128) :
    (l.map Char.ofNat).map Char.toNat = l := by
  rw [List.map_map]
  have : ∀ x ∈ l, (Char.toNat ∘ Char.ofNat) x = id x := by
    intro x hx
    exact char_roundtrip x (h x hx)
  rw [List.map_congr_left this, List.map_id]

/-- C9: slug derivation is idempotent — `slugify (slugify s) = slugify s`
for every string — and every output consists only of lowercase ASCII
letters, digits and single interior hyphens: every character is lowercase
alphanumeric or `'-'`, no two adjacent characters are both hyphens, and the
output neither starts nor ends with a hyphen. -/
theorem C9_slugify_idempotent_charset :
    ∀ s : String,
      slugify (slugify s) = slugify s
    ∧ (slugify s).data.all (fun c => goodN c.toNat || c == '-') = true
    ∧ List.Chain' (fun a b => ¬(a = '-' ∧ b = '-')) (slugify s).data
    ∧ (∀ c ∈ (slugify s).data.head?, c ≠ '-')
    ∧ (∀ c ∈ (slugify s).data.getLast?, c ≠ '-') := by
  intro s
  have hdata : (slugify s).data = (slugifyN (s.data.map Char.toNat)).map Char.ofNat := rfl
  have hmem : ∀ x ∈ slugifyN (s.data.map Char.toNat), goodN x = true ∨ x = 45 :=
    fun _ hx => mem_slugifyN hx
  have h128 : ∀ x ∈ slugifyN (s.data.map Char.toNat), x < 128 :=
    fun x hx => good45_lt128 (hmem x hx)
  refine ⟨?_, ?_, ?_, ?_, ?_⟩
  · show (⟨(slugifyN ((slugify s).data.map Char.toNat)).map Char.ofNat⟩ : String) = slugify s
    rw [hdata, map_toNat_map_ofNat h128, slugifyN_idem]
    rfl
  · rw [hdata, List.all_eq_true]
    intro c hc
    rcases List.mem_map.mp hc with ⟨x, hx, rfl⟩
    rcases hmem x hx with hg | h45
    · rw [Bool.or_eq_true]
      left
      rw [char_roundtrip x (good45_lt128 (Or.inl hg))]
      exact hg
    · subst h45
      rw [Bool.or_eq_true]
      right
      decide
  · rw [hdata, List.chain'_map]
    refine (slugifyN_chain _).imp ?_
    intro a b hab hc
    exact hab ⟨ofNat_eq_dash hc.1, ofNat_eq_dash hc.2⟩
  · intro c hc
    rw [hdata, List.head?_map] at hc
    simp only [Option.mem_def, Option.map_eq_some'] at hc
    rcases hc with ⟨x, hx, rfl⟩
    intro hdash
    exact slugifyN_head _ x hx (ofNat_eq_dash hdash)
  · intro c hc
    rw [hdata, List.getLast?_map] at hc
    simp only [Option.mem_def, Option.map_eq_some'] at hc
    rcases hc with ⟨x, hx, rfl⟩
    intro hdash
    exact slugifyN_last _ x hx (ofNat_eq_dash hdash)

end OrangeOlive
